import Mathlib

/-!
Verification of the batching and aggregation logic of the news/NDVI
notebooks.  The Python fragments under scrutiny are shallowly embedded:
Python lists become `List`, `range` and slicing keep Python's clamping
semantics, the word-count dictionary becomes an association list, and the
exceptions that the aggregation loops can raise (`IndexError` from a
missing `:` separator, `ValueError` from a failed numeric conversion)
become an explicit `Except` error type.
-/

namespace NewsAnalyzer

/-! ## Python primitives used by the notebook code -/

/-- Python `range(n)` for an `int` argument: empty when `n ≤ 0`. -/
def pyRange (n : Int) : List Int := (List.range n.toNat).map Int.ofNat

/-- Clamping of a Python slice index against a list of length `len`:
negative indices count from the end, and out-of-range indices clamp. -/
def pyBound (len : Nat) (i : Int) : Nat :=
  if i < 0 then (i + len).toNat else min i.toNat len

/-- Python slice `l[start:stop]` (step 1). -/
def pySlice (l : List α) (start stop : Int) : List α :=
  (l.take (pyBound l.length stop)).drop (pyBound l.length start)

/-! ## The batcher: `split_list` from the notebook

Python source:

```
def split_list(alist, wanted_parts=1):
    length = len(alist)
    return [ alist[i*length // wanted_parts: (i+1)*length // wanted_parts]
             for i in range(wanted_parts) ]
```

Python `//` is floor division, embedded as `Int.fdiv`. -/

/-- The notebook's batcher `split_list`. -/
def split_list (alist : List α) (wanted_parts : Int) : List (List α) :=
  (pyRange wanted_parts).map (fun (i : Int) =>
    pySlice alist ((i * (alist.length : Int)).fdiv wanted_parts)
                  (((i + 1) * (alist.length : Int)).fdiv wanted_parts))

/-- Reduced, all-natural-number form of `split_list` for a positive part
count; used as a stepping stone in the proofs. -/
def natSplit (l : List α) (P : Nat) : List (List α) :=
  (List.range P).map (fun i => (l.take ((i + 1) * l.length / P)).drop (i * l.length / P))

lemma take_min_length (l : List α) (b : Nat) : l.take (min b l.length) = l.take b := by
  rcases Nat.le_total b l.length with h | h
  · rw [Nat.min_eq_left h]
  · rw [Nat.min_eq_right h, List.take_length, List.take_of_length_le h]

lemma drop_min_of_length_le {L : Nat} (l : List α) (h : l.length ≤ L) (a : Nat) :
    l.drop (min a L) = l.drop a := by
  rcases Nat.le_total a L with h' | h'
  · rw [Nat.min_eq_left h']
  · rw [Nat.min_eq_right h', List.drop_eq_nil_of_le h,
      List.drop_eq_nil_of_le (h.trans h')]

lemma pyBound_natCast (L n : Nat) : pyBound L (n : Int) = min n L := by
  unfold pyBound
  rw [if_neg (Int.not_lt.mpr (Int.natCast_nonneg n)), Int.toNat_natCast]

lemma fdiv_natCast (m n : Nat) : ((m : Int)).fdiv (n : Int) = ((m / n : Nat) : Int) :=
  (Int.ofNat_fdiv m n).symm

/-- On a natural part count, `split_list` coincides with `natSplit`. -/
lemma split_list_natCast (l : List α) (P : Nat) :
    split_list l (P : Int) = natSplit l P := by
  unfold split_list natSplit pyRange
  rw [Int.toNat_natCast, List.map_map]
  refine List.map_congr_left fun i hi => ?_
  have hofn : Int.ofNat i = (i : Int) := rfl
  have hcast1 : (Int.ofNat i * (l.length : Int)) = ((i * l.length : Nat) : Int) := by
    rw [hofn]; push_cast; ring
  have hcast2 : ((Int.ofNat i + 1) * (l.length : Int)) = (((i + 1) * l.length : Nat) : Int) := by
    rw [hofn]; push_cast; ring
  show pySlice l ((Int.ofNat i * (l.length : Int)).fdiv (P : Int))
      (((Int.ofNat i + 1) * (l.length : Int)).fdiv (P : Int)) = _
  rw [hcast1, hcast2, fdiv_natCast, fdiv_natCast]
  unfold pySlice
  rw [pyBound_natCast, pyBound_natCast, take_min_length]
  rw [drop_min_of_length_le _ (by simp)]

lemma natSplit_length (l : List α) (P : Nat) : (natSplit l P).length = P := by
  simp [natSplit]

lemma flatten_slices (l : List α) (f : Nat → Nat) (hmono : ∀ i, f i ≤ f (i + 1))
    (h0 : f 0 = 0) :
    ∀ n, ((List.range n).map (fun i => (l.take (f (i + 1))).drop (f i))).flatten
      = l.take (f n) := by
  intro n
  induction n with
  | zero => simp [h0]
  | succ n ih =>
    rw [List.range_succ, List.map_append, List.flatten_append, ih]
    have htake : l.take (f n) = (l.take (f (n + 1))).take (f n) := by
      rw [List.take_take, inf_eq_left.mpr (hmono n)]
    simp only [List.map_cons, List.map_nil, List.flatten_cons, List.flatten_nil,
      List.append_nil]
    rw [htake, List.take_append_drop]

lemma natSplit_flatten (l : List α) (P : Nat) (hP : 1 ≤ P) :
    (natSplit l P).flatten = l := by
  unfold natSplit
  rw [flatten_slices l (fun i => i * l.length / P)
      (fun i => Nat.div_le_div_right (Nat.mul_le_mul_right _ (Nat.le_succ i)))
      (by simp)]
  rw [Nat.mul_div_cancel_left _ hP, List.take_length]

lemma boundary_le_length (l : List α) (P i : Nat) (hP : 1 ≤ P) (hi : i ≤ P) :
    i * l.length / P ≤ l.length := by
  calc i * l.length / P ≤ P * l.length / P :=
        Nat.div_le_div_right (Nat.mul_le_mul_right _ hi)
    _ = l.length := Nat.mul_div_cancel_left _ hP

lemma natSplit_batch_length (l : List α) (P : Nat) (hP : 1 ≤ P) {b : List α}
    (hb : b ∈ natSplit l P) :
    ∃ i, i < P ∧ b.length = (i + 1) * l.length / P - i * l.length / P := by
  unfold natSplit at hb
  rcases List.mem_map.mp hb with ⟨i, hi, rfl⟩
  refine ⟨i, List.mem_range.mp hi, ?_⟩
  rw [List.length_drop, List.length_take,
    Nat.min_eq_left (boundary_le_length l P (i + 1) hP (List.mem_range.mp hi))]

lemma batch_size_bounds (L P i : Nat) (hP : 1 ≤ P) :
    L / P ≤ (i + 1) * L / P - i * L / P ∧ (i + 1) * L / P - i * L / P ≤ L / P + 1 := by
  have hkey : (i + 1) * L = i * L + L := by ring
  rw [hkey, Nat.add_div hP]
  generalize i * L / P = q
  generalize L / P = d
  generalize i * L % P = r1
  generalize L % P = r2
  split_ifs <;> omega

/-- C1: for every list and every part count `P ≥ 1`, `split_list` returns
exactly `P` batches and concatenating them in order reproduces the input
list exactly (no reordering, no loss, no duplication). -/
theorem c1_split_list_partitions (l : List α) (P : Nat) (hP : 1 ≤ P) :
    (split_list l (P : Int)).length = P ∧ (split_list l (P : Int)).flatten = l := by
  rw [split_list_natCast]
  exact ⟨natSplit_length l P, natSplit_flatten l P hP⟩

/-- Witness for C1 at the concrete input `[1,2,3,4,5]` with `P = 2`. -/
theorem c1_split_list_partitions_witness :
    1 ≤ 2 ∧ ((split_list [1, 2, 3, 4, 5] ((2 : Nat) : Int)).length = 2 ∧
      (split_list [1, 2, 3, 4, 5] ((2 : Nat) : Int)).flatten = [1, 2, 3, 4, 5]) :=
  ⟨by decide, c1_split_list_partitions [1, 2, 3, 4, 5] 2 (by decide)⟩

/-- C3 counterexample: batching the five-element list with `P = 2` does
not produce `[[u1,u2,u3],[u4,u5]]`; the code puts the short batch first. -/
theorem c3_counterexample :
    ¬ (split_list [1, 2, 3, 4, 5] (2 : Int) = [[1, 2, 3], [4, 5]]) := by
  decide

/-- C3 amended: batching `[u1,u2,u3,u4,u5]` with `P = 2` produces exactly
the two batches `[u1,u2]` and `[u3,u4,u5]`, in that order. -/
theorem c3_amended_two_batches :
    split_list [1, 2, 3, 4, 5] (2 : Int) = [[1, 2], [3, 4, 5]] := by
  decide

/-- C4: for every list and every part count `P ≥ 1`, any two batches
produced by `split_list` have lengths differing by at most one, and when
the list is shorter than `P` an empty batch occurs (and no error). -/
theorem c4_split_list_balanced (l : List α) (P : Nat) (hP : 1 ≤ P) :
    (∀ b₁ ∈ split_list l (P : Int), ∀ b₂ ∈ split_list l (P : Int),
      b₁.length ≤ b₂.length + 1) ∧
    (l.length < P → [] ∈ split_list l (P : Int)) := by
  rw [split_list_natCast]
  constructor
  · intro b₁ h₁ b₂ h₂
    rcases natSplit_batch_length l P hP h₁ with ⟨i, hi, hbi⟩
    rcases natSplit_batch_length l P hP h₂ with ⟨j, hj, hbj⟩
    have hb₁ := batch_size_bounds l.length P i hP
    have hb₂ := batch_size_bounds l.length P j hP
    omega
  · intro hL
    unfold natSplit
    refine List.mem_map.mpr ⟨0, List.mem_range.mpr hP, ?_⟩
    have h1 : 1 * l.length / P = 0 := by
      rw [Nat.one_mul]
      exact Nat.div_eq_of_lt hL
    rw [h1]
    simp

/-- Witness for C4 at the concrete input `[1,2]` with `P = 5` (fewer
items than parts, so empty batches occur). -/
theorem c4_split_list_balanced_witness :
    1 ≤ 5 ∧ ((∀ b₁ ∈ split_list [1, 2] ((5 : Nat) : Int),
        ∀ b₂ ∈ split_list [1, 2] ((5 : Nat) : Int), b₁.length ≤ b₂.length + 1) ∧
      (List.length [1, 2] < 5 → [] ∈ split_list [1, 2] ((5 : Nat) : Int))) :=
  ⟨by decide, c4_split_list_balanced [1, 2] 5 (by decide)⟩

/-- C8: batching is deterministic, namely the output of `split_list` is a
function of the input list and the part count alone. -/
theorem c8_split_list_deterministic (l₁ l₂ : List α) (p₁ p₂ : Int)
    (hl : l₁ = l₂) (hp : p₁ = p₂) : split_list l₁ p₁ = split_list l₂ p₂ := by
  rw [hl, hp]

/-- Witness for C8 at the concrete input `[1,2,3]` with `P = 2`. -/
theorem c8_split_list_deterministic_witness :
    ([1, 2, 3] : List Nat) = [1, 2, 3] ∧ (2 : Int) = 2 ∧
      split_list [1, 2, 3] (2 : Int) = split_list [1, 2, 3] (2 : Int) :=
  ⟨rfl, rfl, c8_split_list_deterministic [1, 2, 3] [1, 2, 3] 2 2 rfl rfl⟩

/-- C9: for a part count `p ≤ 0` the comprehension range is empty, so
`split_list` totals to the empty list of batches (no division-by-zero
error), and consequently the concatenation invariant fails on every
non-empty input list. -/
theorem c9_split_list_nonpositive_parts (l : List α) (p : Int) (hp : p ≤ 0) :
    split_list l p = [] ∧ (l ≠ [] → (split_list l p).flatten ≠ l) := by
  have hempty : split_list l p = [] := by
    unfold split_list pyRange
    rw [Int.toNat_of_nonpos hp]
    rfl
  refine ⟨hempty, fun hne => ?_⟩
  rw [hempty]
  simp only [List.flatten_nil]
  exact fun h => hne h.symm

/-- Witness for C9 at the concrete input `[1]` with `p = 0`. -/
theorem c9_split_list_nonpositive_parts_witness :
    (0 : Int) ≤ 0 ∧ (split_list [1] (0 : Int) = [] ∧
      (([1] : List Nat) ≠ [] → (split_list [1] (0 : Int)).flatten ≠ [1])) :=
  ⟨by decide, c9_split_list_nonpositive_parts [1] 0 (by decide)⟩

/-! ## Word-frequency aggregation

Python source (notebook cell):

```
all_words = {};
for item in db_table['Items']:
    for word in item['words']:
        try:
            if word.split(':')[0] in all_words:
                all_words[word.split(':')[0]] = all_words[word.split(':')[0]] + int(word.split(':')[1])
            else:
                all_words[word.split(':')[0]] = int(word.split(':')[1])
        except ValueError:
            pass
```

`word.split(':')[1]` raises `IndexError` when the token has no `:`; that
error is not caught by `except ValueError`.  The dictionary is embedded as
an association list, exceptions as an `Except` error type. -/

/-- Errors the embedded Python fragments can raise. -/
inductive PyError where
  | indexError
  | valueError
deriving DecidableEq

instance {ε : Type u} {α : Type v} [DecidableEq ε] [DecidableEq α] :
    DecidableEq (Except ε α) := fun a b =>
  match a, b with
  | Except.error e₁, Except.error e₂ =>
    if h : e₁ = e₂ then isTrue (by rw [h]) else isFalse (fun hc => h (Except.error.inj hc))
  | Except.ok v₁, Except.ok v₂ =>
    if h : v₁ = v₂ then isTrue (by rw [h]) else isFalse (fun hc => h (Except.ok.inj hc))
  | Except.error _, Except.ok _ => isFalse (fun hc => Except.noConfusion hc)
  | Except.ok _, Except.error _ => isFalse (fun hc => Except.noConfusion hc)

/-- Python dictionary with string keys and integer values, embedded as an
association list in insertion order. -/
abbrev Dict := List (String × Int)

/-- Python `k in d` / `d[k]` combined: lookup of a key. -/
def dictGet : Dict → String → Option Int
  | [], _ => none
  | (k₀, v₀) :: rest, k => if k₀ = k then some v₀ else dictGet rest k

/-- Python `d[k] = v`: update in place when present, append otherwise. -/
def dictSet : Dict → String → Int → Dict
  | [], k, v => [(k, v)]
  | (k₀, v₀) :: rest, k, v =>
    if k₀ = k then (k₀, v) :: rest else (k₀, v₀) :: dictSet rest k v

/-- Python `s.split(sep)` on the character list of a string: split on every
occurrence of `sep`; the result is never empty. -/
def splitChar (c : Char) : List Char → List (List Char)
  | [] => [[]]
  | x :: xs =>
    match splitChar c xs with
    | [] => [[x]]
    | r :: rs => if x = c then [] :: r :: rs else (x :: r) :: rs

/-- Python `word.split(sep)` for a one-character separator. -/
def pySplit (sep : Char) (s : String) : List String :=
  (splitChar sep s.data).map (fun cs => String.mk cs)

/-- Numeric value of a decimal digit character, `none` otherwise. -/
def digitVal (c : Char) : Option Nat :=
  if '0'.toNat ≤ c.toNat ∧ c.toNat ≤ '9'.toNat then some (c.toNat - '0'.toNat)
  else none

/-- Value of a (possibly empty) all-digit character list, `none` when a
non-digit occurs. -/
def digitsVal (cs : List Char) : Option Nat :=
  cs.foldlM (fun acc c => (digitVal c).map (fun d => acc * 10 + d)) 0

/-- Value of a non-empty all-digit character list. -/
def parseNatDigits (cs : List Char) : Option Nat :=
  if cs.isEmpty then none else digitsVal cs

/-- Python `s.strip()`: drop whitespace from both ends. -/
def pyStrip (cs : List Char) : List Char :=
  ((cs.dropWhile Char.isWhitespace).reverse.dropWhile Char.isWhitespace).reverse

/-- Python `int(s)`: optional surrounding whitespace, optional sign,
non-empty decimal digit run; `none` models a raised `ValueError`. -/
def pyInt (s : String) : Option Int :=
  match pyStrip s.data with
  | '-' :: rest => (parseNatDigits rest).map (fun n => -(n : Int))
  | '+' :: rest => (parseNatDigits rest).map (fun n => (n : Int))
  | cs => (parseNatDigits cs).map (fun n => (n : Int))

/-- One iteration of the inner aggregation loop on token `word`:
`IndexError` when the token has no `:` (uncaught), silent skip when the
count part is not an integer (`ValueError` caught by the `except`), and a
cumulative dictionary update otherwise. -/
def processWord (all_words : Dict) (word : String) : Except PyError Dict :=
  let parts := pySplit ':' word
  match parts[1]? with
  | none => Except.error PyError.indexError
  | some cnt =>
    match pyInt cnt with
    | none => Except.ok all_words
    | some n =>
      match dictGet all_words (parts.headD "") with
      | some v => Except.ok (dictSet all_words (parts.headD "") (v + n))
      | none => Except.ok (dictSet all_words (parts.headD "") n)

/-- Inner loop of the aggregation over the token list of one record. -/
def aggTokens (d : Dict) (words : List String) : Except PyError Dict :=
  words.foldlM processWord d

/-- Whole aggregation loop: fold over all records' token lists starting
from the empty dictionary `all_words = {}`. -/
def all_words (items : List (List String)) : Except PyError Dict :=
  items.foldlM aggTokens ([] : Dict)

/-! ## Sentiment numeric-series projection

Python source (notebook cell):

```
sentiments = []
for item in db_table['Items']:
    sentiments.append(float(item['sentiment']))
```

There is no `try`/`except` here: a malformed field raises `ValueError`.
Python float values on the decimal literals occurring here are embedded as
rationals. -/

/-- Python `float(s)` restricted to plain decimal literals with optional
sign and fractional part; `none` models a raised `ValueError`. -/
def pyFloat (s : String) : Option Rat :=
  let cs := pyStrip s.data
  let sb : Rat × List Char :=
    match cs with
    | '-' :: rest => (-1, rest)
    | '+' :: rest => (1, rest)
    | _ => (1, cs)
  match splitChar '.' sb.2 with
  | [ip] =>
    if ip.isEmpty then none
    else (digitsVal ip).map (fun n => sb.1 * (n : Rat))
  | [ip, fp] =>
    if ip.isEmpty && fp.isEmpty then none
    else
      (digitsVal ip).bind (fun a =>
        (digitsVal fp).map (fun b =>
          sb.1 * ((a : Rat) + (b : Rat) / (10 : Rat) ^ fp.length)))
  | _ => none

/-- One iteration of the sentiment projection loop. -/
def sentimentStep (acc : List Rat) (item : String) : Except PyError (List Rat) :=
  match pyFloat item with
  | none => Except.error PyError.valueError
  | some v => Except.ok (acc ++ [v])

/-- The sentiment projection loop over the records' sentiment fields. -/
def sentiments (items : List String) : Except PyError (List Rat) :=
  items.foldlM sentimentStep ([] : List Rat)

lemma sentiments_go_error (items : List String) (acc : List Rat)
    (h : ∃ s ∈ items, pyFloat s = none) :
    items.foldlM sentimentStep acc = Except.error PyError.valueError := by
  induction items generalizing acc with
  | nil => simp at h
  | cons x xs ih =>
    rw [List.foldlM_cons]
    rcases h with ⟨s, hs, hnone⟩
    rcases List.mem_cons.mp hs with rfl | hmem
    · have hx : sentimentStep acc s = Except.error PyError.valueError := by
        unfold sentimentStep
        rw [hnone]
      rw [hx]
      rfl
    · cases hx : pyFloat x with
      | none =>
        have hx' : sentimentStep acc x = Except.error PyError.valueError := by
          unfold sentimentStep
          rw [hx]
        rw [hx']
        rfl
      | some v =>
        have hx' : sentimentStep acc x = Except.ok (acc ++ [v]) := by
          unfold sentimentStep
          rw [hx]
        rw [hx']
        exact ih (acc ++ [v]) ⟨s, hmem, hnone⟩

/-- C6: aggregating the token list `["a:3", "b:2", "a:1"]` yields exactly
the mapping `{a: 4, b: 2}`, counts summed across occurrences. -/
theorem c6_all_words_cumulative_sum :
    all_words [["a:3", "b:2", "a:1"]] = Except.ok [("a", 4), ("b", 2)] := by
  decide

/-- C2 counterexample: a token lacking a `:` separator makes the
aggregation raise an (uncaught) `IndexError` instead of being skipped, and
a malformed sentiment field makes the projection raise a `ValueError`
instead of being skipped. -/
theorem c2_counterexample :
    all_words [["a"]] = Except.error PyError.indexError ∧
    sentiments ["abc"] = Except.error PyError.valueError := by
  constructor
  · decide
  · decide

/-- C2 amended: a token whose count part is non-numeric (Python
`ValueError`) is skipped silently and aggregation continues over the
remaining tokens; but a token lacking a `:` separator raises an uncaught
`IndexError` that aborts the aggregation, and a malformed field in the
numeric-series projection raises an uncaught `ValueError` rather than
being skipped. -/
theorem c2_amended_error_handling :
    (∀ (d : Dict) (ws : List String) (w t : String),
        (pySplit ':' w)[1]? = some t → pyInt t = none →
        aggTokens d (w :: ws) = aggTokens d ws) ∧
    (∀ (d : Dict) (w : String),
        (pySplit ':' w)[1]? = none →
        processWord d w = Except.error PyError.indexError) ∧
    (∀ (items : List String),
        (∃ s ∈ items, pyFloat s = none) →
        sentiments items = Except.error PyError.valueError) := by
  refine ⟨?_, ?_, ?_⟩
  · intro d ws w t h1 h2
    have hskip : processWord d w = Except.ok d := by
      unfold processWord
      simp only [h1, h2]
    unfold aggTokens
    rw [List.foldlM_cons, hskip]
    rfl
  · intro d w h
    unfold processWord
    simp only [h]
  · intro items h
    exact sentiments_go_error items [] h

/-- Witness for C2 amended at tokens `"a:xx"` (bad count, skipped), `"b"`
(no separator, `IndexError`) and sentiment field `"abc"` (`ValueError`). -/
theorem c2_amended_error_handling_witness :
    ((pySplit ':' "a:xx")[1]? = some "xx" ∧ pyInt "xx" = none ∧
      aggTokens [("z", 1)] ["a:xx"] = aggTokens [("z", 1)] []) ∧
    ((pySplit ':' "b")[1]? = none ∧
      processWord [] "b" = Except.error PyError.indexError) ∧
    ((∃ s ∈ ["abc"], pyFloat s = none) ∧
      sentiments ["abc"] = Except.error PyError.valueError) :=
  ⟨⟨by decide, by decide,
      c2_amended_error_handling.1 [("z", 1)] [] "a:xx" "xx" (by decide) (by decide)⟩,
    ⟨by decide, c2_amended_error_handling.2.1 [] "b" (by decide)⟩,
    ⟨by decide, c2_amended_error_handling.2.2 ["abc"] (by decide)⟩⟩

/-! ## Permutation invariance of the aggregation (claim C10)

The dictionaries built by the aggregation loop are compared as mappings
(lookup-extensional equality), since the association-list order reflects
Python dictionary internals the spec does not pin down. -/

/-- Two dictionaries are equivalent when every key looks up equally. -/
def dictEquiv (d₁ d₂ : Dict) : Prop := ∀ k, dictGet d₁ k = dictGet d₂ k

/-- Two aggregation outcomes are equivalent: equal errors, or
mapping-equivalent dictionaries. -/
def aggEquiv : Except PyError Dict → Except PyError Dict → Prop
  | Except.ok d₁, Except.ok d₂ => dictEquiv d₁ d₂
  | Except.error e₁, Except.error e₂ => e₁ = e₂
  | _, _ => False

lemma dictEquiv_trans {d₁ d₂ d₃ : Dict} (h₁ : dictEquiv d₁ d₂)
    (h₂ : dictEquiv d₂ d₃) : dictEquiv d₁ d₃ :=
  fun k => (h₁ k).trans (h₂ k)

lemma aggEquiv_trans {a b c : Except PyError Dict} (h₁ : aggEquiv a b)
    (h₂ : aggEquiv b c) : aggEquiv a c := by
  cases a <;> cases b <;> cases c <;>
    simp only [aggEquiv] at * <;> first
      | exact h₁.trans h₂
      | exact dictEquiv_trans h₁ h₂

lemma dictGet_dictSet (d : Dict) (k : String) (v : Int) (k' : String) :
    dictGet (dictSet d k v) k' = if k' = k then some v else dictGet d k' := by
  induction d with
  | nil =>
    by_cases h : k' = k
    · subst h
      simp [dictSet, dictGet]
    · have h' : ¬ (k = k') := fun hh => h hh.symm
      simp [dictSet, dictGet, h, h']
  | cons p rest ih =>
    obtain ⟨k₀, v₀⟩ := p
    by_cases h₀ : k₀ = k
    · subst h₀
      by_cases h' : k₀ = k'
      · subst h'
        simp [dictSet, dictGet]
      · have h'' : ¬ (k' = k₀) := fun hh => h' hh.symm
        simp [dictSet, dictGet, h', h'']
    · by_cases h' : k₀ = k'
      · subst h'
        simp [dictSet, dictGet, h₀]
      · simp [dictSet, dictGet, h₀, h', ih]

/-- Key of a token: the part before the first `:`. -/
def wkey (w : String) : String := (pySplit ':' w).headD ""

/-- Adding `n` to a key of the dictionary, absent keys counting as `0`. -/
def addTo (d : Dict) (k : String) (n : Int) : Dict :=
  dictSet d k ((dictGet d k).getD 0 + n)

lemma dictGet_addTo (d : Dict) (k : String) (n : Int) (k' : String) :
    dictGet (addTo d k n) k'
      = if k' = k then some ((dictGet d k).getD 0 + n) else dictGet d k' := by
  unfold addTo
  exact dictGet_dictSet d k _ k'

lemma addTo_comm (d : Dict) (k₁ k₂ : String) (n₁ n₂ : Int) :
    dictEquiv (addTo (addTo d k₁ n₁) k₂ n₂) (addTo (addTo d k₂ n₂) k₁ n₁) := by
  intro k
  by_cases h12 : k₂ = k₁
  · subst h12
    by_cases hk : k = k₂
    · subst hk
      simp only [dictGet_addTo, if_pos rfl]
      cases dictGet d k <;> simp <;> ring
    · simp only [dictGet_addTo, if_neg hk]
  · by_cases hk1 : k = k₁
    · subst hk1
      have hne : ¬ (k = k₂) := fun hh => h12 (hh.symm.trans rfl)
      simp only [dictGet_addTo, if_pos rfl, if_neg hne,
        if_neg (fun hh => h12 hh : ¬ (k₂ = k))]
    · by_cases hk2 : k = k₂
      · subst hk2
        simp only [dictGet_addTo, if_pos rfl, if_neg hk1,
          if_neg (fun hh => hk1 hh.symm : ¬ (k₁ = k))]
      · simp only [dictGet_addTo, if_neg hk1, if_neg hk2]

lemma addTo_congr {d₁ d₂ : Dict} (h : dictEquiv d₁ d₂) (k : String) (n : Int) :
    dictEquiv (addTo d₁ k n) (addTo d₂ k n) := by
  intro k'
  simp only [dictGet_addTo, h k, h k']

lemma processWord_none (d : Dict) (w : String)
    (h : (pySplit ':' w)[1]? = none) :
    processWord d w = Except.error PyError.indexError := by
  unfold processWord
  simp only [h]

lemma processWord_skip (d : Dict) (w t : String)
    (h1 : (pySplit ':' w)[1]? = some t) (h2 : pyInt t = none) :
    processWord d w = Except.ok d := by
  unfold processWord
  simp only [h1, h2]

lemma processWord_add (d : Dict) (w t : String) (n : Int)
    (h1 : (pySplit ':' w)[1]? = some t) (h2 : pyInt t = some n) :
    processWord d w = Except.ok (addTo d (wkey w) n) := by
  unfold processWord addTo wkey
  simp only [h1, h2]
  cases hdg : dictGet d ((pySplit ':' w).headD "") <;> simp [hdg]

/-- Classification of a token: no separator, bad count, or a proper
`key:count` contribution. -/
lemma processWord_cases (w : String) :
    (pySplit ':' w)[1]? = none ∨
    (∃ t, (pySplit ':' w)[1]? = some t ∧ pyInt t = none) ∨
    (∃ t n, (pySplit ':' w)[1]? = some t ∧ pyInt t = some n) := by
  cases h1 : (pySplit ':' w)[1]? with
  | none => exact Or.inl rfl
  | some t =>
    cases h2 : pyInt t with
    | none => exact Or.inr (Or.inl ⟨t, rfl, h2⟩)
    | some n => exact Or.inr (Or.inr ⟨t, n, rfl, h2⟩)

lemma processWord_equiv {d₁ d₂ : Dict} (h : dictEquiv d₁ d₂) (w : String) :
    aggEquiv (processWord d₁ w) (processWord d₂ w) := by
  rcases processWord_cases w with h1 | ⟨t, h1, h2⟩ | ⟨t, n, h1, h2⟩
  · rw [processWord_none d₁ w h1, processWord_none d₂ w h1]
    rfl
  · rw [processWord_skip d₁ w t h1 h2, processWord_skip d₂ w t h1 h2]
    exact h
  · rw [processWord_add d₁ w t n h1 h2, processWord_add d₂ w t n h1 h2]
    exact addTo_congr h (wkey w) n

lemma aggTokens_equiv {d₁ d₂ : Dict} (h : dictEquiv d₁ d₂) (ws : List String) :
    aggEquiv (aggTokens d₁ ws) (aggTokens d₂ ws) := by
  induction ws generalizing d₁ d₂ with
  | nil => exact h
  | cons w ws ih =>
    unfold aggTokens
    rw [List.foldlM_cons, List.foldlM_cons]
    have heq := processWord_equiv h w
    cases ha : processWord d₁ w <;> cases hb : processWord d₂ w <;>
      rw [ha, hb] at heq
    · exact heq
    · exact heq.elim
    · exact heq.elim
    · exact ih heq

lemma aggEquiv_bind_aggTokens {a b : Except PyError Dict}
    (h : aggEquiv a b) (ws : List String) :
    aggEquiv (a >>= fun d => aggTokens d ws) (b >>= fun d => aggTokens d ws) := by
  cases a <;> cases b
  · exact h
  · exact h.elim
  · exact h.elim
  · exact aggTokens_equiv h ws

lemma aggTokens_cons_cons (d : Dict) (x y : String) (l : List String) :
    aggTokens d (x :: y :: l)
      = (processWord d x >>= fun d₁ => processWord d₁ y) >>=
          fun d₂ => aggTokens d₂ l := by
  cases h : processWord d x
  · unfold aggTokens
    rw [List.foldlM_cons, h]
    rfl
  · unfold aggTokens
    rw [List.foldlM_cons, h]
    rfl

lemma processWord_comm (d : Dict) (w₁ w₂ : String) :
    aggEquiv (processWord d w₁ >>= fun d' => processWord d' w₂)
      (processWord d w₂ >>= fun d' => processWord d' w₁) := by
  rcases processWord_cases w₁ with ha | ⟨t₁, ha, ha2⟩ | ⟨t₁, n₁, ha, ha2⟩ <;>
    rcases processWord_cases w₂ with hb | ⟨t₂, hb, hb2⟩ | ⟨t₂, n₂, hb, hb2⟩
  · rw [processWord_none d w₁ ha, processWord_none d w₂ hb]
    rfl
  · rw [processWord_none d w₁ ha, processWord_skip d w₂ t₂ hb hb2]
    show aggEquiv (Except.error PyError.indexError) (processWord d w₁)
    rw [processWord_none d w₁ ha]
    rfl
  · rw [processWord_none d w₁ ha, processWord_add d w₂ t₂ n₂ hb hb2]
    show aggEquiv (Except.error PyError.indexError)
      (processWord (addTo d (wkey w₂) n₂) w₁)
    rw [processWord_none _ w₁ ha]
    rfl
  · rw [processWord_skip d w₁ t₁ ha ha2, processWord_none d w₂ hb]
    show aggEquiv (processWord d w₂) (Except.error PyError.indexError)
    rw [processWord_none d w₂ hb]
    rfl
  · rw [processWord_skip d w₁ t₁ ha ha2, processWord_skip d w₂ t₂ hb hb2]
    show aggEquiv (processWord d w₂) (processWord d w₁)
    rw [processWord_skip d w₁ t₁ ha ha2, processWord_skip d w₂ t₂ hb hb2]
    exact fun k => rfl
  · rw [processWord_skip d w₁ t₁ ha ha2, processWord_add d w₂ t₂ n₂ hb hb2]
    show aggEquiv (processWord d w₂) (processWord (addTo d (wkey w₂) n₂) w₁)
    rw [processWord_add d w₂ t₂ n₂ hb hb2, processWord_skip _ w₁ t₁ ha ha2]
    exact fun k => rfl
  · rw [processWord_add d w₁ t₁ n₁ ha ha2, processWord_none d w₂ hb]
    show aggEquiv (processWord (addTo d (wkey w₁) n₁) w₂)
      (Except.error PyError.indexError)
    rw [processWord_none _ w₂ hb]
    rfl
  · rw [processWord_add d w₁ t₁ n₁ ha ha2, processWord_skip d w₂ t₂ hb hb2]
    show aggEquiv (processWord (addTo d (wkey w₁) n₁) w₂) (processWord d w₁)
    rw [processWord_skip _ w₂ t₂ hb hb2, processWord_add d w₁ t₁ n₁ ha ha2]
    exact fun k => rfl
  · rw [processWord_add d w₁ t₁ n₁ ha ha2, processWord_add d w₂ t₂ n₂ hb hb2]
    show aggEquiv (processWord (addTo d (wkey w₁) n₁) w₂)
      (processWord (addTo d (wkey w₂) n₂) w₁)
    rw [processWord_add _ w₂ t₂ n₂ hb hb2, processWord_add _ w₁ t₁ n₁ ha ha2]
    exact addTo_comm d (wkey w₁) (wkey w₂) n₁ n₂

lemma aggTokens_perm {ws₁ ws₂ : List String} (h : ws₁.Perm ws₂) (d : Dict) :
    aggEquiv (aggTokens d ws₁) (aggTokens d ws₂) := by
  induction h generalizing d with
  | nil => exact fun k => rfl
  | cons x h ih =>
    unfold aggTokens
    rw [List.foldlM_cons, List.foldlM_cons]
    cases hx : processWord d x
    · rfl
    · exact ih _
  | swap x y l =>
    rw [aggTokens_cons_cons, aggTokens_cons_cons]
    exact aggEquiv_bind_aggTokens (processWord_comm d y x) l
  | trans h₁ h₂ ih₁ ih₂ =>
    exact aggEquiv_trans (ih₁ d) (ih₂ d)

lemma foldlM_aggTokens_flatten (items : List (List String)) (d : Dict) :
    items.foldlM aggTokens d = aggTokens d items.flatten := by
  induction items generalizing d with
  | nil => rfl
  | cons ws rest ih =>
    rw [List.foldlM_cons, List.flatten_cons]
    unfold aggTokens
    rw [List.foldlM_append]
    cases h : List.foldlM processWord d ws
    · rfl
    · exact ih _

lemma forall₂_perm_flatten {l₁ l₂ : List (List String)}
    (h : List.Forall₂ List.Perm l₁ l₂) : l₁.flatten.Perm l₂.flatten := by
  induction h with
  | nil => exact List.Perm.refl _
  | cons hab hrest ih =>
    rw [List.flatten_cons, List.flatten_cons]
    exact hab.append ih

/-- C10: aggregated word counts are invariant, as a token-to-count
mapping, under permutation of the input records and of the tokens within
each record: whenever `items₂` arises from `items₁` by permuting the
record list and then permuting each record's token list, the two runs
yield lookup-equal dictionaries, or in the aborting case the same
error. -/
theorem c10_all_words_perm_invariant (items₁ items₂ : List (List String))
    (h : ∃ mid, items₁.Perm mid ∧ List.Forall₂ List.Perm mid items₂) :
    aggEquiv (all_words items₁) (all_words items₂) := by
  obtain ⟨mid, hperm, hinner⟩ := h
  unfold all_words
  rw [foldlM_aggTokens_flatten, foldlM_aggTokens_flatten]
  exact aggTokens_perm (hperm.flatten.trans (forall₂_perm_flatten hinner)) []

/-- Witness for C10 on the record lists `[["a:1", "b:2"], ["c:3"]]` and
`[["c:3"], ["b:2", "a:1"]]`: the records are swapped and the tokens
inside the first record are also swapped. -/
theorem c10_all_words_perm_invariant_witness :
    (∃ mid, ([["a:1", "b:2"], ["c:3"]] : List (List String)).Perm mid ∧
        List.Forall₂ List.Perm mid [["c:3"], ["b:2", "a:1"]]) ∧
      aggEquiv (all_words [["a:1", "b:2"], ["c:3"]])
        (all_words [["c:3"], ["b:2", "a:1"]]) :=
  have hmid : ∃ mid, ([["a:1", "b:2"], ["c:3"]] : List (List String)).Perm mid ∧
      List.Forall₂ List.Perm mid [["c:3"], ["b:2", "a:1"]] :=
    ⟨[["c:3"], ["a:1", "b:2"]],
      List.Perm.swap ["c:3"] ["a:1", "b:2"] [],
      List.Forall₂.cons (List.Perm.refl ["c:3"])
        (List.Forall₂.cons (List.Perm.swap "b:2" "a:1" []) List.Forall₂.nil)⟩
  ⟨hmid, c10_all_words_perm_invariant _ _ hmid⟩

/-! ## Top-K selection (claim C5)

Python source: `top20 = dict(sorted(all_words.iteritems(), key=lambda (k, v): (-v, k))[:20])`.

Sorting ascending by the key `(-count, token)` means descending count with
ties broken by ascending token text.  Python 2 compares byte strings
lexicographically by character code; `strLeB` embeds that comparison. -/

/-- Lexicographic byte-wise string comparison, as Python 2 `<=`. -/
def strLeB : List Char → List Char → Bool
  | [], _ => true
  | _ :: _, [] => false
  | x :: xs, y :: ys =>
    if x.toNat < y.toNat then true
    else if y.toNat < x.toNat then false
    else strLeB xs ys

/-- Propositional form of the string comparison. -/
def strLe (a b : String) : Prop := strLeB a.data b.data = true

/-- The sort key order `(-count, token)` of the `top20` expression:
descending count, ties broken by ascending token. -/
def topKeyLE (a b : String × Int) : Prop :=
  b.2 < a.2 ∨ (a.2 = b.2 ∧ strLe a.1 b.1)

instance : DecidableRel strLe := fun a b =>
  decidable_of_iff (strLeB a.data b.data = true) Iff.rfl

instance : DecidableRel topKeyLE := fun a b =>
  decidable_of_iff (b.2 < a.2 ∨ (a.2 = b.2 ∧ strLe a.1 b.1)) Iff.rfl

lemma strLeB_total (a b : List Char) : strLeB a b = true ∨ strLeB b a = true := by
  induction a generalizing b with
  | nil => exact Or.inl rfl
  | cons x xs ih =>
    cases b with
    | nil => exact Or.inr rfl
    | cons y ys =>
      by_cases hxy : x.toNat < y.toNat
      · left
        simp [strLeB, hxy]
      · by_cases hyx : y.toNat < x.toNat
        · right
          simp [strLeB, hyx]
        · rcases ih ys with h | h
          · left
            simp [strLeB, hxy, hyx, h]
          · right
            simp [strLeB, hxy, hyx, h]

lemma strLeB_trans {a b c : List Char} (h₁ : strLeB a b = true)
    (h₂ : strLeB b c = true) : strLeB a c = true := by
  induction a generalizing b c with
  | nil => rfl
  | cons x xs ih =>
    cases b with
    | nil => simp [strLeB] at h₁
    | cons y ys =>
      cases c with
      | nil => simp [strLeB] at h₂
      | cons z zs =>
        simp only [strLeB] at h₁ h₂ ⊢
        split_ifs at h₁ h₂ ⊢ <;> first
          | rfl
          | (exact ih h₁ h₂)
          | (exfalso; omega)

instance : IsTotal (String × Int) topKeyLE :=
  ⟨fun a b => by
    rcases lt_trichotomy a.2 b.2 with h | h | h
    · exact Or.inr (Or.inl h)
    · rcases strLeB_total a.1.data b.1.data with hs | hs
      · exact Or.inl (Or.inr ⟨h, hs⟩)
      · exact Or.inr (Or.inr ⟨h.symm, hs⟩)
    · exact Or.inl (Or.inl h)⟩

instance : IsTrans (String × Int) topKeyLE :=
  ⟨fun a b c hab hbc => by
    rcases hab with h₁ | ⟨h₁e, h₁s⟩ <;> rcases hbc with h₂ | ⟨h₂e, h₂s⟩
    · exact Or.inl (by omega)
    · exact Or.inl (by omega)
    · exact Or.inl (by omega)
    · exact Or.inr ⟨h₁e.trans h₂e, strLeB_trans h₁s h₂s⟩⟩

/-- Top-K selection: sort by `(-count, token)` ascending and keep the
first `k` entries. -/
def top_k (m : Dict) (k : Nat) : Dict := (List.insertionSort topKeyLE m).take k

/-- The notebook's `top20`. -/
def top20 (m : Dict) : Dict := top_k m 20

/-- C5: top-K selection is ordered by descending count with ties broken by
ascending token text (hence deterministic), and on the mapping
`{a:4, b:2, c:4}` with `K = 2` it returns exactly the tokens `a` and `c`. -/
theorem c5_top_k_deterministic_order :
    (∀ (m : Dict) (k : Nat), List.Sorted topKeyLE (top_k m k)) ∧
    (top_k [("a", 4), ("b", 2), ("c", 4)] 2).map Prod.fst = ["a", "c"] := by
  constructor
  · intro m k
    exact List.Pairwise.sublist (List.take_sublist k _)
      (List.sorted_insertionSort topKeyLE m)
  · decide

/-! ## Null-record filtering before projection (claim C7)

Python source:

```
timeSeries = filter(None, resultsHK)
ndviSeries = [obs['ndvi'] for obs in timeSeries if 'ndvi' in obs]
```

A missing result is `None`; a record's fields may be absent, which the
comprehension guards test for. -/

/-- Result record of the NDVI pipeline; each field may be absent. -/
structure NdviRecord where
  date : Option String
  cloud : Option Rat
  ndvi : Option Rat
deriving DecidableEq

/-- Python `filter(None, results)`: drop the null results. -/
def filter_None (results : List (Option NdviRecord)) : List NdviRecord :=
  results.filterMap id

/-- Projection `[obs['ndvi'] for obs in timeSeries if 'ndvi' in obs]`. -/
def ndviSeries (timeSeries : List NdviRecord) : List Rat :=
  timeSeries.filterMap (fun obs => obs.ndvi)

lemma ndviSeries_length_of_all_present (l : List NdviRecord)
    (h : ∀ r ∈ l, r.ndvi.isSome) : (ndviSeries l).length = l.length := by
  induction l with
  | nil => rfl
  | cons r rest ih =>
    have hr := h r (List.mem_cons_self r rest)
    unfold ndviSeries at ih ⊢
    rw [List.filterMap_cons]
    cases hnd : r.ndvi with
    | none =>
      rw [hnd] at hr
      simp at hr
    | some v =>
      simp only [List.length_cons]
      rw [ih (fun x hx => h x (List.mem_cons_of_mem r hx))]

lemma filter_None_length_lt {results : List (Option NdviRecord)}
    (hnull : none ∈ results) : (filter_None results).length < results.length := by
  induction results with
  | nil => simp at hnull
  | cons x xs ih =>
    cases x with
    | none =>
      unfold filter_None
      simp only [List.filterMap_cons, id_eq, List.length_cons]
      exact Nat.lt_succ_of_le (List.length_filterMap_le id xs)
    | some r =>
      have hmem : (none : Option NdviRecord) ∈ xs := by
        rcases List.mem_cons.mp hnull with h | h
        · exact absurd h (by simp)
        · exact h
      unfold filter_None at ih ⊢
      simp only [List.filterMap_cons, id_eq, List.length_cons]
      exact Nat.succ_lt_succ (ih hmem)

/-- C7: null results among `N` records are filtered out before projection,
so when every present record carries the field, the projected numeric
series has length equal to the count of present records and strictly less
than `N`; no step of this is partial. -/
theorem c7_null_records_filtered (resultsHK : List (Option NdviRecord))
    (hnull : none ∈ resultsHK)
    (hfield : ∀ r ∈ filter_None resultsHK, r.ndvi.isSome) :
    (ndviSeries (filter_None resultsHK)).length = (filter_None resultsHK).length ∧
    (ndviSeries (filter_None resultsHK)).length < resultsHK.length := by
  refine ⟨ndviSeries_length_of_all_present _ hfield, ?_⟩
  rw [ndviSeries_length_of_all_present _ hfield]
  exact filter_None_length_lt hnull

/-- Witness for C7 on a two-element result list with one null record. -/
theorem c7_null_records_filtered_witness :
    ((none : Option NdviRecord) ∈
        [some ⟨some "2017-08-29", some 15, some 1⟩, none]) ∧
    (∀ r ∈ filter_None [some ⟨some "2017-08-29", some 15, some 1⟩, none],
        r.ndvi.isSome) ∧
    ((ndviSeries (filter_None [some ⟨some "2017-08-29", some 15, some 1⟩, none])).length
        = (filter_None [some ⟨some "2017-08-29", some 15, some 1⟩, none]).length ∧
      (ndviSeries (filter_None [some ⟨some "2017-08-29", some 15, some 1⟩, none])).length
        < (List.length [some (⟨some "2017-08-29", some 15, some 1⟩ : NdviRecord), none])) :=
  ⟨by decide, by decide,
    c7_null_records_filtered [some ⟨some "2017-08-29", some 15, some 1⟩, none]
      (by decide) (by decide)⟩

end NewsAnalyzer
